import Mathlib

/-!
# Verification of the LiAnalyze core (matrix utilities, elimination engine,
solution classifier, geometric projector, timeline state machine)

Shallow embedding of `src/lib/math/matrix-utils.ts`, `src/lib/math/explanation.ts`
(second source section of `matrix-utils.ts`), `src/lib/math/plane-geometry.ts`
and `src/hooks/useHistory.ts`.

Modelling conventions:
* JavaScript numbers are modelled by exact rationals `ℚ`; the numeric
  tolerance literal `1e-10` is modelled by the exact rational `1 / 10^10`.
* Matrices (`number[][]`) are `List (List ℚ)`.  JavaScript arrays are
  immutable-by-convention in the source (`cloneMatrix` copies before every
  mutation), so `cloneMatrix` is the identity here and updates use `List.set`.
* Fallible code (a JavaScript `throw`) is modelled with `Option`, `none`
  standing for the thrown exception.
* For the claims about out-of-bounds behaviour the JS hole/`undefined`
  semantics of arrays is modelled separately (`swapRowsJS` and friends) over
  rows of type `Option (List ℚ)`, where `none` is `undefined`.
-/

namespace LiAnalyze

/-- Numeric tolerance used throughout the source (`1e-10`). -/
def tol : ℚ := 1 / 10 ^ 10

/-- `number[][]` — an augmented matrix. -/
abbrev Mat := List (List ℚ)

/-- `matrix[r][c]` for in-bounds accesses (out-of-bounds reads default to `0`;
the solver and classifier only ever read in-bounds entries). -/
def entry (M : Mat) (r c : ℕ) : ℚ := (M.getD r []).getD c 0

/-- The tagged `RowOperation` union from `src/lib/types/matrix.ts`. -/
inductive RowOperation where
  | swap (row1 row2 : ℕ)
  | scale (row : ℕ) (scalar : ℚ)
  | addMultiple (targetRow sourceRow : ℕ) (scalar : ℚ)
deriving DecidableEq, Repr

/-- `cloneMatrix` — a deep copy; the identity on immutable values. -/
def cloneMatrix (M : Mat) : Mat := M

/-- `swapRows(matrix, i, j)` for in-bounds indices: rows `i` and `j`
exchanged, no-op clone when `i == j`.  (The JS behaviour when an index is out
of bounds — silent array extension with an `undefined` hole — is modelled
separately by `swapRowsJS` below.) -/
def swapRows (M : Mat) (i j : ℕ) : Mat :=
  if i = j then cloneMatrix M
  else
    let ri := M.getD i []
    let rj := M.getD j []
    (M.set i rj).set j ri

/-- `scaleRow(matrix, i, k)` — throws (`none`) when `k === 0`, otherwise
multiplies every entry of row `i` by `k`.  Note the source checks only exact
zero, not the numeric tolerance. -/
def scaleRow (M : Mat) (i : ℕ) (k : ℚ) : Option Mat :=
  if k = 0 then Option.none
  else some (M.set i ((M.getD i []).map (fun val => val * k)))

/-- `addMultipleOfRow(matrix, targetRow, sourceRow, k)` —
`target[c] += k * source[c]` for every column `c` of the target row.
(A ragged source row would produce JS `NaN` entries; rows always have equal
length in every call site, so the out-of-range default `0` is never read.) -/
def addMultipleOfRow (M : Mat) (targetRow sourceRow : ℕ) (k : ℚ) : Mat :=
  let src := M.getD sourceRow []
  M.set targetRow
    (((M.getD targetRow []).mapIdx (fun col val => val + k * src.getD col 0)))

/-- `isZeroRow(row, tolerance = 1e-10)` — every entry has absolute value
below the tolerance. -/
def isZeroRow (row : List ℚ) (tolerance : ℚ) : Bool :=
  row.all (fun val => |val| < tolerance)

/-- `cleanMatrix(matrix, tolerance = 1e-10)` — rounds entries with absolute
value below the tolerance to exactly zero. -/
def cleanMatrix (M : Mat) : Mat :=
  M.map (fun row => row.map (fun val => if |val| < tol then 0 else val))

/-- `getNumVariables(matrix)` — for `C` columns there are `C-1` variables. -/
def getNumVariables (M : Mat) : ℕ := (M.getD 0 []).length - 1

/-! ## Number formatting (`formatNumber`, `closestFraction`, templates) -/

/-- `Math.round` — rounds to the nearest integer, ties towards `+∞`. -/
def jsRound (x : ℚ) : ℤ := ⌊x + 1 / 2⌋

/-- One trailing-zero-trimming step on a `(fractionalPart, digitCount)` pair. -/
def trimStep (p : ℕ × ℕ) : ℕ × ℕ :=
  if p.1 % 10 = 0 then (p.1 / 10, p.2 - 1) else p

/-- Left-pad a digit string with zeros to the given length. -/
def padLeftZeros (s : String) (len : ℕ) : String :=
  String.mk (List.replicate (len - s.length) '0') ++ s

/-- Model of `Number(n.toFixed(4)).toString()`: round to four decimal places
(ties towards `+∞`, as `toFixed` specifies) and print with trailing zeros
trimmed. -/
def decimal4String (n : ℚ) : String :=
  let m := jsRound (n * 10000)
  let a := m.natAbs
  let ip := a / 10000
  let fp := a % 10000
  if fp = 0 then (if m < 0 then "-" else "") ++ toString ip
  else
    let t := trimStep (trimStep (trimStep (fp, 4)))
    (if m < 0 then "-" else "") ++ toString ip ++ "." ++
      padLeftZeros (toString t.1) t.2

/-- The fixed table of common fractions recognised by `formatNumber`. -/
def fractionsList : List (ℚ × String) :=
  [(1/2, "1/2"), (-1/2, "-1/2"),
   (1/3, "1/3"), (-1/3, "-1/3"),
   (2/3, "2/3"), (-2/3, "-2/3"),
   (1/4, "1/4"), (-1/4, "-1/4"),
   (3/4, "3/4"), (-3/4, "-3/4"),
   (1/5, "1/5"), (-1/5, "-1/5"),
   (1/6, "1/6"), (-1/6, "-1/6"),
   (5/6, "5/6"), (-5/6, "-5/6")]

/-- `formatNumber(n)` — integers verbatim, then the fixed fraction table
(matched within tolerance), then the 4-decimal rounded value. -/
def formatNumber (n : ℚ) : String :=
  if n.den = 1 then toString n.num
  else
    match fractionsList.find? (fun p => |n - p.1| < tol) with
    | some p => p.2
    | none => decimal4String n

/-- The source's private `gcd(a, b)` (Euclid's algorithm on non-negative
numbers), which agrees with `Nat.gcd`. -/
def gcd (a b : ℕ) : ℕ := Nat.gcd a b

/-- The `for (let d = 1; d <= 12; d++)` loop body of `closestFraction`,
recursing over the list of candidate denominators. -/
def closestFractionAux (n : ℚ) : List ℕ → Option (ℤ × ℕ)
  | [] => Option.none
  | d :: ds =>
    let num := jsRound (n * d)
    if |((num : ℚ) / (d : ℚ)) - n| < tol ∧ d ≠ 1 then
      let g := gcd num.natAbs d
      some (num / (g : ℤ), d / g)
    else closestFractionAux n ds

/-- `closestFraction(n)` — first denominator `d ∈ 2..12` (the `d !== 1`
guard skips 1) whose rounded numerator reproduces `n` within tolerance,
simplified by the gcd. -/
def closestFraction (n : ℚ) : Option (ℤ × ℕ) :=
  closestFractionAux n (List.range' 1 12)

/-- `formatLatexNumber(n)` — integers verbatim, else a `\frac` from
`closestFraction`, else the 4-decimal rounded value. -/
def formatLatexNumber (n : ℚ) : String :=
  if n.den = 1 then toString n.num
  else
    match closestFraction n with
    | some pq => "\\frac\x7b" ++ toString pq.1 ++ "\x7d\x7b" ++ toString pq.2 ++ "\x7d"
    | none => decimal4String n

/-- `formatLatexScalar(k)` — `"+ k"` or `"- |k|"`. -/
def formatLatexScalar (k : ℚ) : String :=
  if 0 < k then "+ " ++ formatLatexNumber k
  else "- " ++ formatLatexNumber |k|

/-- `generateExplanation(op)` — the human-readable step description. -/
def generateExplanation : RowOperation → String
  | .swap row1 row2 =>
      "Swap Row " ++ toString (row1 + 1) ++ " and Row " ++ toString (row2 + 1)
  | .scale row scalar =>
      "Multiply Row " ++ toString (row + 1) ++ " by " ++ formatNumber scalar
  | .addMultiple targetRow sourceRow scalar =>
      if 0 < scalar then
        "Add " ++ formatNumber scalar ++ " × Row " ++ toString (sourceRow + 1) ++
          " to Row " ++ toString (targetRow + 1)
      else
        "Subtract " ++ formatNumber |scalar| ++ " × Row " ++
          toString (sourceRow + 1) ++ " from Row " ++ toString (targetRow + 1)

/-- `generateLatex(op)` — the LaTeX step description. -/
def generateLatex : RowOperation → String
  | .swap row1 row2 =>
      "R_\x7b" ++ toString (row1 + 1) ++ "\x7d \\leftrightarrow R_\x7b" ++
        toString (row2 + 1) ++ "\x7d"
  | .scale row scalar =>
      "R_\x7b" ++ toString (row + 1) ++ "\x7d \\leftarrow " ++
        formatLatexNumber scalar ++ " \\cdot R_\x7b" ++ toString (row + 1) ++ "\x7d"
  | .addMultiple targetRow sourceRow scalar =>
      "R_\x7b" ++ toString (targetRow + 1) ++ "\x7d \\leftarrow R_\x7b" ++
        toString (targetRow + 1) ++ "\x7d " ++ formatLatexScalar scalar ++
        " \\cdot R_\x7b" ++ toString (sourceRow + 1) ++ "\x7d"

/-- `rowToEquationString(row, variables = ['x','y','z'])`. -/
def rowToEquationString (row : List ℚ) : String :=
  let vars := ["x", "y", "z"]
  let numVars := row.length - 1
  let constant := row.getD numVars 0
  let terms := (List.range (min numVars vars.length)).foldl
    (fun terms i =>
      let coeff := row.getD i 0
      if |coeff| < tol then terms
      else
        let t :=
          if |coeff| = 1 then
            (if 0 < coeff then vars.getD i "" else "-" ++ vars.getD i "")
          else formatNumber coeff ++ vars.getD i ""
        let t := if terms ≠ [] ∧ 0 < coeff then "+ " ++ t else t
        terms ++ [t]) []
  if terms = [] then "0 = " ++ formatNumber constant
  else String.intercalate " " terms ++ " = " ++ formatNumber constant

/-! ## Plane geometry (`plane-geometry.ts`)

Row entries are read with JS indexing, so a component read past the end of a
row is `undefined`, modelled by `Option.none`; JS `NaN` produced by arithmetic
on `undefined` is also modelled by `none` (both propagate identically through
the arithmetic used here). -/

/-- `PlaneParams` — normal `(a, b, c)`, constant `d`, colour and equation. -/
structure PlaneParams where
  normal : Option ℚ × Option ℚ × Option ℚ
  constant : Option ℚ
  color : String
  equation : String
deriving DecidableEq, Repr

/-- `rowToPlaneParams(row, color)` — `a = row[0]`, `b = row[1]`, `c = row[2]`,
`d = row[row.length - 1]`. -/
def rowToPlaneParams (row : List ℚ) (color : String) : PlaneParams :=
  { normal := (row.get? 0, row.get? 1, row.get? 2)
    constant := row.get? (row.length - 1)
    color := color
    equation := rowToEquationString row }

/-- The default colour palette of `matrixToPlanes`. -/
def PLANE_COLORS : List String :=
  ["#6366f1", "#22c55e", "#ef4444", "#f59e0b", "#06b6d4", "#ec4899"]

/-- `matrixToPlanes(matrix, colors = PLANE_COLORS)`. -/
def matrixToPlanes (M : Mat) : List PlaneParams :=
  M.mapIdx (fun i row =>
    rowToPlaneParams row (PLANE_COLORS.getD (i % PLANE_COLORS.length) ""))

/-- JS multiplication lifted over possibly-`undefined`/`NaN` operands. -/
def omul : Option ℚ → Option ℚ → Option ℚ
  | some a, some b => some (a * b)
  | _, _ => Option.none

/-- JS subtraction lifted over possibly-`undefined`/`NaN` operands. -/
def osub : Option ℚ → Option ℚ → Option ℚ
  | some a, some b => some (a - b)
  | _, _ => Option.none

/-- JS addition lifted over possibly-`undefined`/`NaN` operands. -/
def oadd : Option ℚ → Option ℚ → Option ℚ
  | some a, some b => some (a + b)
  | _, _ => Option.none

/-- `findIntersectionPoint(planes)` — Cramer's rule on the first three
planes; `null` (outer `none`) when fewer than three planes are given or the
determinant is within tolerance of zero.  A `NaN` determinant (from an
`undefined` normal component) is not `< 1e-10` in JS, so the function then
returns a triple of `NaN` coordinates rather than `null`. -/
def findIntersectionPoint (planes : List PlaneParams) :
    Option (Option ℚ × Option ℚ × Option ℚ) :=
  match planes with
  | p1 :: p2 :: p3 :: _ =>
    let (a1, b1, c1) := p1.normal
    let (a2, b2, c2) := p2.normal
    let (a3, b3, c3) := p3.normal
    let d1 := p1.constant
    let d2 := p2.constant
    let d3 := p3.constant
    let det := oadd (osub (omul a1 (osub (omul b2 c3) (omul b3 c2)))
                          (omul b1 (osub (omul a2 c3) (omul a3 c2))))
                    (omul c1 (osub (omul a2 b3) (omul a3 b2)))
    let xNum := oadd (osub (omul d1 (osub (omul b2 c3) (omul b3 c2)))
                           (omul b1 (osub (omul d2 c3) (omul d3 c2))))
                     (omul c1 (osub (omul d2 b3) (omul d3 b2)))
    let yNum := oadd (osub (omul a1 (osub (omul d2 c3) (omul d3 c2)))
                           (omul d1 (osub (omul a2 c3) (omul a3 c2))))
                     (omul c1 (osub (omul a2 d3) (omul a3 d2)))
    let zNum := oadd (osub (omul a1 (osub (omul b2 d3) (omul b3 d2)))
                           (omul b1 (osub (omul a2 d3) (omul a3 d2))))
                     (omul d1 (osub (omul a2 b3) (omul a3 b2)))
    match det with
    | some dv =>
      if |dv| < tol then Option.none
      else some (xNum.map (fun v => v / dv), yNum.map (fun v => v / dv),
                 zNum.map (fun v => v / dv))
    | Option.none => some (Option.none, Option.none, Option.none)
  | _ => Option.none

/-! ## Elimination engine (`gaussJordanSolver`, `solveSystem`) -/

/-- The `phase` tag of a `SolverStep`. -/
inductive Phase where
  | initial | intermediate | complete
deriving DecidableEq, Repr

/-- `mode: 'ref' | 'rref'`. -/
inductive SolverMode where
  | ref | rref
deriving DecidableEq, Repr

/-- `SolverConfig`; the `pivoting` field is the source's `partialPivoting`
(that identifier is reserved in this development). -/
structure SolverConfig where
  pivoting : Bool
  mode : SolverMode
deriving DecidableEq, Repr

/-- `DEFAULT_CONFIG = { partialPivoting: true, mode: 'rref' }`. -/
def DEFAULT_CONFIG : SolverConfig := ⟨true, .rref⟩

/-- `SolverStep`. -/
structure SolverStep where
  stepIndex : ℕ
  matrix : Mat
  operation : Option RowOperation
  explanation : String
  latex : String
  phase : Phase
deriving DecidableEq, Repr

/-- An `intermediate` step as yielded after each elementary operation. -/
def mkStep (idx : ℕ) (m : Mat) (op : RowOperation) : SolverStep :=
  ⟨idx, m, some op, generateExplanation op, generateLatex op, .intermediate⟩

/-- The partial-pivoting scan: fold of
`for (row = pivotRow+1; row < numRows; row++) if (absVal > maxVal) update`
over the remaining row indices, carried as a `(maxVal, maxRow)` pair. -/
def pivotScan (M : Mat) (col : ℕ) : List ℕ → ℚ × ℕ → ℚ × ℕ
  | [], best => best
  | r :: rs, best =>
      pivotScan M col rs (if best.1 < |entry M r col| then (|entry M r col|, r) else best)

/-- The elimination inner loop over candidate rows: each row distinct from
the pivot row whose entry in the pivot column is at least the tolerance gets
an `AddMultiple(row, pivotRow, -entry)` step.  Returns the emitted steps, the
final matrix and the next step index. -/
def elimLoop (pivotRow col : ℕ) : List ℕ → Mat → ℕ → List SolverStep × Mat × ℕ
  | [], m, idx => ([], m, idx)
  | r :: rs, m, idx =>
    if r = pivotRow then elimLoop pivotRow col rs m idx
    else
      let e := entry m r col
      if |e| < tol then elimLoop pivotRow col rs m idx
      else
        let op := RowOperation.addMultiple r pivotRow (-e)
        let m' := cleanMatrix (addMultipleOfRow m r pivotRow (-e))
        let rest := elimLoop pivotRow col rs m' (idx + 1)
        (mkStep idx m' op :: rest.1, rest.2)

/-- Normalise the pivot to 1 (when needed) and run the elimination loop for
one column.  The scale guard ensures the scalar `1 / pivotVal` is non-zero,
so `scaleRow` cannot fail there; `.getD m` is the unreachable throw branch. -/
def colReduce (numRows pivotRow col : ℕ) (mode : SolverMode) (m : Mat) (idx : ℕ) :
    List SolverStep × Mat × ℕ :=
  let pv := entry m pivotRow col
  let scaled :=
    if tol < |pv| ∧ tol < |pv - 1| then
      let scalar := 1 / pv
      let op := RowOperation.scale pivotRow scalar
      let m' := cleanMatrix ((scaleRow m pivotRow scalar).getD m)
      ([mkStep idx m' op], m', idx + 1)
    else ([], m, idx)
  let rows := if mode = .rref then List.range numRows
              else List.range' (pivotRow + 1) (numRows - (pivotRow + 1))
  let elim := elimLoop pivotRow col rows scaled.2.1 scaled.2.2
  (scaled.1 ++ elim.1, elim.2)

/-- The forward loop over pivot columns
(`for (col = 0; col < numCols - 1 && pivotRow < numRows; col++)`), with the
partial-pivoting column skip (`maxVal < 1e-10 → continue`, no `pivotRow`
advance) and the optional swap step. -/
def fwdLoop (numRows : ℕ) (pp : Bool) (mode : SolverMode) :
    List ℕ → Mat → ℕ → ℕ → List SolverStep × Mat × ℕ
  | [], m, _, idx => ([], m, idx)
  | col :: cols, m, pivotRow, idx =>
    if numRows ≤ pivotRow then ([], m, idx)
    else if pp then
      let best := pivotScan m col (List.range' (pivotRow + 1) (numRows - (pivotRow + 1)))
        (|entry m pivotRow col|, pivotRow)
      if best.1 < tol then fwdLoop numRows pp mode cols m pivotRow idx
      else
        let swapped :=
          if best.2 ≠ pivotRow then
            let op := RowOperation.swap pivotRow best.2
            let m' := cleanMatrix (swapRows m pivotRow best.2)
            ([mkStep idx m' op], m', idx + 1)
          else ([], m, idx)
        let colR := colReduce numRows pivotRow col mode swapped.2.1 swapped.2.2
        let rest := fwdLoop numRows pp mode cols colR.2.1 (pivotRow + 1) colR.2.2
        (swapped.1 ++ (colR.1 ++ rest.1), rest.2)
    else
      if |entry m pivotRow col| < tol then fwdLoop numRows pp mode cols m pivotRow idx
      else
        let colR := colReduce numRows pivotRow col mode m idx
        let rest := fwdLoop numRows pp mode cols colR.2.1 (pivotRow + 1) colR.2.2
        (colR.1 ++ rest.1, rest.2)

/-- The explanation attached to the final `complete` step. -/
def completeExplanation (mode : SolverMode) : String :=
  if mode = .rref then "Reduced Row Echelon Form (RREF) achieved"
  else "Row Echelon Form (REF) achieved"

/-- `gaussJordanSolver(inputMatrix, config)` — the full (drained) step
sequence of the generator: the `initial` step, the forward-elimination steps,
and the `complete` step. -/
def gaussJordanSolver (M : Mat) (cfg : SolverConfig) : List SolverStep :=
  let numRows := M.length
  let numCols := (M.getD 0 []).length
  let fwd := fwdLoop numRows cfg.pivoting cfg.mode (List.range (numCols - 1))
    (cloneMatrix M) 0 1
  ⟨0, cloneMatrix M, Option.none, "Initial augmented matrix", "", .initial⟩ ::
    (fwd.1 ++ [⟨fwd.2.2, fwd.2.1, Option.none, completeExplanation cfg.mode, "", .complete⟩])

/-- `SolutionType` — the source strings `'unique' | 'infinite' | 'none'`
(`noSolution` stands for `'none'`). -/
inductive SolutionType where
  | unique | infinite | noSolution
deriving DecidableEq, Repr

/-- `classifySolution(rref)` — inconsistent-row check first, then the
non-zero-row count against the number of variables. -/
def classifySolution (rref : Mat) : SolutionType :=
  let numVars := (rref.getD 0 []).length - 1
  if rref.any (fun row =>
      (row.take numVars).all (fun v => |v| < tol) && decide (tol < |row.getD numVars 0|))
  then .noSolution
  else if numVars ≤ rref.countP (fun row => !(isZeroRow row tol)) then .unique
  else .infinite

/-- `extractSolution(rref)` — reads `rref[i][numCols-1]` for each variable
index `i` (bounded by the row count). -/
def extractSolution (rref : Mat) : List ℚ :=
  let numCols := (rref.getD 0 []).length
  let numVars := numCols - 1
  (List.range (min numVars rref.length)).map
    (fun i => (rref.getD i []).getD (numCols - 1) 0)

/-- `SolverResult`. -/
structure SolverResult where
  steps : List SolverStep
  solutionType : SolutionType
  solution : Option (List ℚ)
  parametric : Option String
  rref : Mat
deriving DecidableEq, Repr

/-- `solveSystem(inputMatrix, config)` — drain the generator and classify
the last step's matrix. -/
def solveSystem (M : Mat) (cfg : SolverConfig) : SolverResult :=
  let steps := gaussJordanSolver M cfg
  let rref := (steps.getLastD ⟨0, [], Option.none, "", "", .initial⟩).matrix
  let st := classifySolution rref
  { steps := steps
    solutionType := st
    solution := if st = .unique then some (extractSolution rref) else Option.none
    parametric := if st = .infinite then some "Free variable(s) present in the system"
                  else Option.none
    rref := rref }

/-! ## Timeline state machine (`useHistory.ts`) -/

/-- `Snapshot`. -/
structure Snapshot where
  matrix : Mat
  operation : Option RowOperation
  explanation : String
  latex : String
  planes : List PlaneParams
deriving DecidableEq, Repr

/-- `applyOperation(matrix, op)` — dispatch to the matrix primitive followed
by `cleanMatrix`; `none` models the JS exception escaping the reducer
(`scaleRow`'s zero-scalar `Error`, or the `TypeError` raised when an
out-of-bounds index produces an `undefined` row that `cleanMatrix` or the
row `.map` then dereferences).  An `AddMultiple` whose target row is empty
never dereferences the source row, hence the disjunct. -/
def applyOperation (M : Mat) : RowOperation → Option Mat
  | .swap row1 row2 =>
      if row1 = row2 then some (cleanMatrix (swapRows M row1 row2))
      else if row1 < M.length ∧ row2 < M.length then
        some (cleanMatrix (swapRows M row1 row2))
      else Option.none
  | .scale row scalar =>
      if row < M.length ∨ scalar = 0 then (scaleRow M row scalar).map cleanMatrix
      else Option.none
  | .addMultiple targetRow sourceRow scalar =>
      if targetRow < M.length ∧ (sourceRow < M.length ∨ M.getD targetRow [] = []) then
        some (cleanMatrix (addMultipleOfRow M targetRow sourceRow scalar))
      else Option.none

/-- `createSnapshot(matrix, op)`. -/
def createSnapshot (M : Mat) (op : Option RowOperation) : Snapshot :=
  { matrix := cloneMatrix M
    operation := op
    explanation := match op with
                   | some o => generateExplanation o
                   | Option.none => "Initial system"
    latex := match op with
             | some o => generateLatex o
             | Option.none => ""
    planes := matrixToPlanes M }

/-- `createInitialSnapshot(matrix)`. -/
def createInitialSnapshot (M : Mat) : Snapshot := createSnapshot M Option.none

/-- `HistoryState`. -/
structure HistoryState where
  past : List Snapshot
  present : Snapshot
  future : List Snapshot
deriving DecidableEq, Repr

/-- `HistoryAction`. -/
inductive HistoryAction where
  | applyRowOp (payload : RowOperation)
  | undo
  | redo
  | jumpTo (payload : ℕ)
  | reset (payload : Mat)
deriving DecidableEq, Repr

/-- `historyReducer(state, action)`; `none` models the exception from a
failing `APPLY_ROW_OP` escaping the reducer (no new state is produced). -/
def historyReducer (state : HistoryState) : HistoryAction → Option HistoryState
  | .applyRowOp op =>
      (applyOperation state.present.matrix op).map (fun newMatrix =>
        { past := state.past ++ [state.present]
          present := createSnapshot newMatrix (some op)
          future := [] })
  | .undo =>
      some (if state.past = [] then state
            else { past := state.past.dropLast
                   present := state.past.getLastD state.present
                   future := state.present :: state.future })
  | .redo =>
      some (match state.future with
            | [] => state
            | next :: rest =>
              { past := state.past ++ [state.present], present := next, future := rest })
  | .jumpTo index =>
      let allSnapshots := state.past ++ [state.present] ++ state.future
      some (if index < allSnapshots.length then
              { past := allSnapshots.take index
                present := allSnapshots.getD index state.present
                future := allSnapshots.drop (index + 1) }
            else state)
  | .reset m =>
      some { past := [], present := createInitialSnapshot m, future := [] }

/-- The reducer's initial state for a starting matrix (`useReducer` init). -/
def initialHistory (M : Mat) : HistoryState := ⟨[], createInitialSnapshot M, []⟩

/-- Sequential dispatch of `APPLY_ROW_OP` actions; `none` as soon as one
fails. -/
def applyAll : List RowOperation → HistoryState → Option HistoryState
  | [], s => some s
  | op :: ops, s => (historyReducer s (.applyRowOp op)).bind (applyAll ops)

/-- One `UNDO` dispatch (always succeeds; the `getD` default is never used). -/
def undoStep (s : HistoryState) : HistoryState := (historyReducer s .undo).getD s

/-- `n` successive `UNDO` dispatches. -/
def undoN : ℕ → HistoryState → HistoryState
  | 0, s => s
  | n + 1, s => undoStep (undoN n s)

/-- The flattened timeline `past ++ [present] ++ future`. -/
def timeline (s : HistoryState) : List Snapshot := s.past ++ [s.present] ++ s.future

/-! ## JS array-hole semantics of the row primitives

`swapRows`/`scaleRow`/`addMultipleOfRow` perform no bounds validation.  To
settle the out-of-bounds claims these are re-modelled over JS arrays whose
elements may be `undefined` (`Option.none`): reading past the end yields
`undefined`, and assigning past the end extends the array with holes. -/

/-- A JS row: `undefined` or an array of numbers. -/
abbrev JsRow := Option (List ℚ)

/-- A JS matrix whose rows may be `undefined` holes. -/
abbrev JsMat := List JsRow

/-- `array[i]` — `undefined` when out of bounds. -/
def jsGetRow (M : JsMat) (i : ℕ) : JsRow := M.getD i Option.none

/-- `array[i] = r` — extends the array with `undefined` holes when `i` is
past the end. -/
def jsSetRow (M : JsMat) (i : ℕ) (r : JsRow) : JsMat :=
  if i < M.length then M.set i r
  else M ++ List.replicate (i - M.length) Option.none ++ [r]

/-- `swapRows` with JS semantics: the destructuring assignment
`[result[i], result[j]] = [result[j], result[i]]` reads both old values and
then assigns them, silently creating `undefined` rows / extending the array
when an index is out of bounds — no error is thrown. -/
def swapRowsJS (M : JsMat) (i j : ℕ) : JsMat :=
  if i = j then M
  else
    let ri := jsGetRow M i
    let rj := jsGetRow M j
    jsSetRow (jsSetRow M i rj) j ri

/-- `scaleRow` with JS semantics: `result[i].map(...)` throws a `TypeError`
(`none`) when row `i` is `undefined` (out of bounds). -/
def scaleRowJS (M : JsMat) (i : ℕ) (k : ℚ) : Option JsMat :=
  if k = 0 then Option.none
  else match jsGetRow M i with
    | Option.none => Option.none
    | some r => some (jsSetRow M i (some (r.map (fun val => val * k))))

/-- `addMultipleOfRow` with JS semantics: dereferencing an `undefined`
target row, or an `undefined` source row inside a non-empty map callback,
throws a `TypeError` (`none`). -/
def addMultipleOfRowJS (M : JsMat) (t s : ℕ) (k : ℚ) : Option JsMat :=
  match jsGetRow M t with
  | Option.none => Option.none
  | some rt =>
    if rt = [] then some (jsSetRow M t (some []))
    else match jsGetRow M s with
      | Option.none => Option.none
      | some rs =>
        some (jsSetRow M t (some (rt.mapIdx (fun col val => val + k * rs.getD col 0))))

/-! ## `validateMatrix` over JS runtime values

The per-entry check is `typeof v !== 'number' || isNaN(v)`.  To express what
it accepts, entries are modelled as JS runtime values: finite numbers,
infinities, `NaN`, or a non-number value.  (Global `isNaN`'s coercing
behaviour on non-numbers is unreachable behind the `typeof` short-circuit.) -/

/-- A JS runtime value as seen by `validateMatrix`. -/
inductive JSVal where
  | num (q : ℚ)
  | posInf
  | negInf
  | nan
  | nonNumber
deriving DecidableEq, Repr

/-- `typeof v === 'number'`. -/
def jsTypeofNumber : JSVal → Bool
  | .nonNumber => false
  | _ => true

/-- `isNaN(v)` for number-typed `v`. -/
def jsIsNaN : JSVal → Bool
  | .nan => true
  | _ => false

/-- The per-entry rejection test of `validateMatrix`. -/
def invalidEntry (v : JSVal) : Bool := !jsTypeofNumber v || jsIsNaN v

/-- The row loop of `validateMatrix` over `(index, row)` pairs. -/
def validateRows (cols : ℕ) : List (ℕ × List JSVal) → Option String
  | [] => Option.none
  | (i, row) :: rest =>
    if row.length ≠ cols then
      some ("Row " ++ toString (i + 1) ++ " has " ++ toString row.length ++
        " columns but expected " ++ toString cols)
    else match row.findIdx? invalidEntry with
      | some j => some ("Invalid value at row " ++ toString (i + 1) ++ ", column " ++
          toString (j + 1))
      | Option.none => validateRows cols rest

/-- `validateMatrix(matrix)` — an error message, or `null` (`none`) if
valid. -/
def validateMatrix (M : List (List JSVal)) : Option String :=
  if M.length = 0 then some "Matrix must have at least one row"
  else
    let cols := (M.getD 0 []).length
    if cols < 2 then some "Matrix must have at least 2 columns (1 variable + 1 constant)"
    else validateRows cols M.enum

/-! ## Spec-side classifier definitions

Declarative restatements of the classification rule, used to compare the
source's `classifySolution` against the specification's wording. -/

/-- The claim's inconsistent-row condition with the glossary reading of
"within tolerance of zero" (`|v| < 1e-10`): all coefficients within
tolerance of zero while the constant is *not* within tolerance of zero. -/
def claimInconsistentRow (numVars : ℕ) (row : List ℚ) : Prop :=
  (∀ c < numVars, |row.getD c 0| < tol) ∧ ¬(|row.getD numVars 0| < tol)

instance claimInconsistentRow.instDecidable (numVars : ℕ) (row : List ℚ) :
    Decidable (claimInconsistentRow numVars row) := by
  unfold claimInconsistentRow; infer_instance

/-- The classification rule exactly as the claim words it (glossary reading
of the tolerance comparison on the constant entry). -/
def claimClassify (M : Mat) : SolutionType :=
  let numVars := (M.getD 0 []).length - 1
  if ∃ i < M.length, claimInconsistentRow numVars (M.getD i []) then .noSolution
  else if numVars ≤ (M.filter (fun r => !(isZeroRow r tol))).length then .unique
  else .infinite

/-- The inconsistent-row condition as the code implements it: all
coefficients strictly below tolerance while the constant is strictly above
tolerance in absolute value. -/
def specInconsistentRow (numVars : ℕ) (row : List ℚ) : Prop :=
  (∀ c < numVars, |row.getD c 0| < tol) ∧ tol < |row.getD numVars 0|

instance specInconsistentRow.instDecidable (numVars : ℕ) (row : List ℚ) :
    Decidable (specInconsistentRow numVars row) := by
  unfold specInconsistentRow; infer_instance

/-- The amended classification rule, stated declaratively: an existential
inconsistency check first, then the count of not-entirely-zero rows against
the number of variables. -/
def specClassify (M : Mat) : SolutionType :=
  let numVars := (M.getD 0 []).length - 1
  if ∃ i < M.length, specInconsistentRow numVars (M.getD i []) then .noSolution
  else if numVars ≤ (M.filter (fun r => !(isZeroRow r tol))).length then .unique
  else .infinite

/-! ## Support lemmas -/

/-- `all` over a `take`-prefix, phrased with indexed reads. -/
lemma take_all_abs_iff (l : List ℚ) : ∀ (n : ℕ),
    ((l.take n).all (fun v => |v| < tol) = true) ↔
      (∀ c, c < n → c < l.length → |l.getD c 0| < tol) := by
  induction l with
  | nil => intro n; simp
  | cons a l ih =>
    intro n
    cases n with
    | zero => simp
    | succ n =>
      simp only [List.take_succ_cons, List.all_cons, Bool.and_eq_true,
        decide_eq_true_eq, ih]
      constructor
      · rintro ⟨ha, h⟩ c hc hcl
        cases c with
        | zero => simpa using ha
        | succ c => simpa using h c (by omega) (by simpa using hcl)
      · intro h
        refine ⟨by simpa using h 0 (by omega) (by simp), fun c hc hcl => ?_⟩
        simpa using h (c + 1) (by omega) (by simpa using hcl)

/-- The element of an `enumFrom` pair is an element of the base list. -/
lemma mem_enumFrom_snd {α : Type} :
    ∀ (l : List α) (n : ℕ) (p : ℕ × α), p ∈ l.enumFrom n → p.2 ∈ l := by
  intro l
  induction l with
  | nil => intro n p hp; simp [List.enumFrom] at hp
  | cons a l ih =>
    intro n p hp
    simp only [List.enumFrom, List.mem_cons] at hp
    rcases hp with rfl | hp
    · simp
    · exact List.mem_cons_of_mem a (ih (n + 1) p hp)

/-- The row loop of `validateMatrix` accepts every list of correctly-sized
rows whose entries all pass the per-entry check. -/
lemma validateRows_none (cols : ℕ) : ∀ (l : List (ℕ × List JSVal)),
    (∀ p ∈ l, (p.2).length = cols) →
    (∀ p ∈ l, ∀ v ∈ p.2, invalidEntry v = false) →
    validateRows cols l = Option.none := by
  intro l
  induction l with
  | nil => intro _ _; rfl
  | cons p rest ih =>
    intro hlen hent
    obtain ⟨i, row⟩ := p
    have h1 : row.length = cols := hlen (i, row) (List.mem_cons_self _ _)
    have h2 : row.findIdx? invalidEntry = Option.none :=
      List.findIdx?_eq_none_iff.mpr (fun v hv => hent (i, row) (List.mem_cons_self _ _) v hv)
    simp only [validateRows, h1, h2]
    simp only [ne_eq, not_true_eq_false, if_false, ite_self]
    exact ih (fun q hq => hlen q (List.mem_cons_of_mem _ hq))
      (fun q hq => hent q (List.mem_cons_of_mem _ hq))

/-- Splitting a list at an in-bounds index and putting the element back
reassembles the list. -/
lemma take_getElem_drop {α : Type} (l : List α) (i : ℕ) (hi : i < l.length) :
    l.take i ++ [l[i]] ++ l.drop (i + 1) = l := by
  conv_rhs => rw [← List.take_append_drop i l, List.drop_eq_getElem_cons hi]
  simp

/-- After `N` successful `APPLY_ROW_OP` dispatches, `N` `UNDO` dispatches
restore the original `past` and `present`. -/
lemma applyAll_undo (ops : List RowOperation) : ∀ (s s' : HistoryState),
    applyAll ops s = some s' →
    (undoN ops.length s').past = s.past ∧ (undoN ops.length s').present = s.present := by
  induction ops with
  | nil =>
    intro s s' h
    simp only [applyAll, Option.some.injEq] at h
    subst h
    exact ⟨rfl, rfl⟩
  | cons op ops ih =>
    intro s s' h
    simp only [applyAll] at h
    cases happ : historyReducer s (.applyRowOp op) with
    | none => rw [happ] at h; simp at h
    | some t =>
      rw [happ] at h
      simp only [Option.some_bind] at h
      have ht : t.past = s.past ++ [s.present] := by
        simp only [historyReducer] at happ
        cases ha : applyOperation s.present.matrix op with
        | none => rw [ha] at happ; simp at happ
        | some m =>
          rw [ha] at happ
          simp only [Option.map_some', Option.some.injEq] at happ
          rw [← happ]
      obtain ⟨h1, h2⟩ := ih t s' h
      have hstep : undoN (op :: ops).length s' = undoStep (undoN ops.length s') := rfl
      rw [hstep]
      unfold undoStep
      simp only [historyReducer, Option.getD_some]
      rw [h1, ht]
      rw [if_neg (show s.past ++ [s.present] ≠ [] by simp)]
      exact ⟨by simp [List.dropLast_concat], by simp [List.getLastD_concat]⟩

/-- A solver-loop output chunk is index-coherent: its steps carry the
consecutive indices starting at the input counter, and the returned counter
advances by the number of emitted steps. -/
def IdxChunk (idx : ℕ) (out : List SolverStep × Mat × ℕ) : Prop :=
  out.1.map SolverStep.stepIndex = List.range' idx out.1.length ∧
    out.2.2 = idx + out.1.length

lemma IdxChunk.nil (idx : ℕ) (m : Mat) : IdxChunk idx ([], m, idx) := by
  constructor <;> simp [List.range']

lemma IdxChunk.comp {idx : ℕ} {s1 s2 : List SolverStep} {m1 m2 : Mat} {i1 i2 : ℕ}
    (h1 : IdxChunk idx (s1, m1, i1)) (h2 : IdxChunk i1 (s2, m2, i2)) :
    IdxChunk idx (s1 ++ s2, m2, i2) := by
  obtain ⟨a1, a2⟩ := h1
  obtain ⟨b1, b2⟩ := h2
  simp only [IdxChunk] at *
  constructor
  · simp only [List.map_append, List.length_append, a1, b1, a2]
    rw [List.range'_append_1]
    exact congrArg (List.range' idx) (by omega)
  · simp only [List.length_append] at *
    omega

lemma IdxChunk.cons {idx : ℕ} {rest : List SolverStep × Mat × ℕ}
    (m' : Mat) (op : RowOperation) (h : IdxChunk (idx + 1) rest) :
    IdxChunk idx (mkStep idx m' op :: rest.1, rest.2) := by
  obtain ⟨b1, b2⟩ := h
  constructor
  · simp only [List.map_cons, List.length_cons, b1, List.range'_succ]
    rfl
  · simp only [List.length_cons]
    omega

/-- `elimLoop` is index-coherent. -/
lemma elimLoop_chunk (pivotRow col : ℕ) : ∀ (rows : List ℕ) (m : Mat) (idx : ℕ),
    IdxChunk idx (elimLoop pivotRow col rows m idx) := by
  intro rows
  induction rows with
  | nil => intro m idx; exact IdxChunk.nil idx m
  | cons r rs ih =>
    intro m idx
    by_cases h1 : r = pivotRow
    · simp only [elimLoop, if_pos h1]
      exact ih m idx
    · by_cases h2 : |entry m r col| < tol
      · simp only [elimLoop, if_neg h1, if_pos h2]
        exact ih m idx
      · simp only [elimLoop, if_neg h1, if_neg h2]
        exact IdxChunk.cons _ _ (ih _ (idx + 1))

/-- `colReduce` is index-coherent. -/
lemma colReduce_chunk (numRows pivotRow col : ℕ) (mode : SolverMode)
    (m : Mat) (idx : ℕ) : IdxChunk idx (colReduce numRows pivotRow col mode m idx) := by
  unfold colReduce
  by_cases hs : tol < |entry m pivotRow col| ∧ tol < |entry m pivotRow col - 1|
  · simp only [if_pos hs, List.singleton_append]
    exact IdxChunk.cons _ _ (elimLoop_chunk _ _ _ _ (idx + 1))
  · simp only [if_neg hs]
    have h := elimLoop_chunk pivotRow col
      (if mode = SolverMode.rref then List.range numRows
       else List.range' (pivotRow + 1) (numRows - (pivotRow + 1))) m idx
    exact (List.nil_append _ ▸ IdxChunk.comp (IdxChunk.nil idx m) h :)

/-- `fwdLoop` is index-coherent. -/
lemma fwdLoop_chunk (numRows : ℕ) (pp : Bool) (mode : SolverMode) :
    ∀ (cols : List ℕ) (m : Mat) (pivotRow idx : ℕ),
    IdxChunk idx (fwdLoop numRows pp mode cols m pivotRow idx) := by
  intro cols
  induction cols with
  | nil => intro m pivotRow idx; exact IdxChunk.nil idx m
  | cons col cols ih =>
    intro m pivotRow idx
    by_cases hstop : numRows ≤ pivotRow
    · simp only [fwdLoop, if_pos hstop]
      exact IdxChunk.nil idx m
    · cases pp with
      | false =>
        by_cases hz : |entry m pivotRow col| < tol
        · simp only [fwdLoop, if_neg hstop, Bool.false_eq_true, if_false, if_pos hz]
          exact ih m pivotRow idx
        · simp only [fwdLoop, if_neg hstop, Bool.false_eq_true, if_false, if_neg hz]
          exact IdxChunk.comp (colReduce_chunk _ _ _ _ m idx) (ih _ _ _)
      | true =>
        by_cases hb : (pivotScan m col
            (List.range' (pivotRow + 1) (numRows - (pivotRow + 1)))
            (|entry m pivotRow col|, pivotRow)).1 < tol
        · simp only [fwdLoop, if_neg hstop, if_true, if_pos hb]
          exact ih m pivotRow idx
        · simp only [fwdLoop, if_neg hstop, if_true, if_neg hb]
          by_cases hswap : (pivotScan m col
              (List.range' (pivotRow + 1) (numRows - (pivotRow + 1)))
              (|entry m pivotRow col|, pivotRow)).2 ≠ pivotRow
          · simp only [if_pos hswap, List.singleton_append]
            exact IdxChunk.cons _ _
              (IdxChunk.comp (colReduce_chunk _ _ _ _ _ (idx + 1)) (ih _ _ _))
          · simp only [if_neg hswap]
            exact (List.nil_append _ ▸ IdxChunk.comp (IdxChunk.nil idx m)
              (IdxChunk.comp (colReduce_chunk _ _ _ _ m idx) (ih _ _ _)) :)

/-- `Math.round` of an integer is that integer. -/
lemma jsRound_intCast (k : ℤ) : jsRound (k : ℚ) = k := by
  unfold jsRound
  rw [add_comm, Int.floor_add_int]
  norm_num

/-- A rational times its denominator is its numerator. -/
lemma mul_den_eq_num (n : ℚ) : n * (n.den : ℚ) = (n.num : ℚ) := by
  nth_rewrite 1 [← Rat.num_div_den n]
  rw [div_mul_cancel₀]
  exact Nat.cast_ne_zero.mpr n.den_nz

/-- Two rationals with denominators at most 12 that are within `1e-10` of
each other are equal: distinct such rationals differ by at least `1/144`. -/
lemma close_imp_eq (m : ℤ) (d : ℕ) (n : ℚ) (hd : 0 < d) (hd12 : d ≤ 12)
    (hq : n.den ≤ 12) (h : |((m : ℚ)) / (d : ℚ) - n| < tol) :
    ((m : ℚ)) / (d : ℚ) = n := by
  by_contra hne
  have hd0 : ((d : ℚ)) ≠ 0 := (Nat.cast_pos.mpr hd).ne'
  have hq0 : ((n.den : ℚ)) ≠ 0 := Nat.cast_ne_zero.mpr n.den_nz
  have hrne : (m : ℚ) / (d : ℚ) - n ≠ 0 := sub_ne_zero.mpr hne
  have key : ((m : ℚ) / (d : ℚ) - n) * ((d : ℚ) * (n.den : ℚ)) =
      ((m * n.den - n.num * d : ℤ) : ℚ) := by
    have hnd := mul_den_eq_num n
    push_cast
    field_simp
    linear_combination (-(d : ℚ) ^ 2) * hnd
  have hK : (m * n.den - n.num * d : ℤ) ≠ 0 := by
    intro h0
    apply hrne
    have := key
    rw [h0] at this
    push_cast at this
    rcases mul_eq_zero.mp this with h' | h'
    · exact h'
    · exact absurd h' (mul_ne_zero hd0 hq0)
  have h1 : (1 : ℚ) ≤ |((m * n.den - n.num * d : ℤ) : ℚ)| := by
    rw [← Int.cast_abs]
    exact_mod_cast Int.one_le_abs hK
  have habs : |(m : ℚ) / (d : ℚ) - n| * ((d : ℚ) * (n.den : ℚ)) =
      |((m * n.den - n.num * d : ℤ) : ℚ)| := by
    rw [← abs_of_pos (show (0 : ℚ) < (d : ℚ) * (n.den : ℚ) by positivity),
      ← abs_mul, key]
  have hd' : ((d : ℚ)) ≤ 12 := by exact_mod_cast hd12
  have hq' : ((n.den : ℚ)) ≤ 12 := by exact_mod_cast hq
  have htol : |(m : ℚ) / (d : ℚ) - n| < 1 / 10 ^ 10 := h
  have hpos : (0 : ℚ) < (d : ℚ) * (n.den : ℚ) := by positivity
  nlinarith [abs_nonneg ((m : ℚ) / (d : ℚ) - n), h1, habs, htol, hpos, hd', hq']

/-- If `m / d` is a rational `n`, then `n`'s denominator divides `d`. -/
lemma den_dvd_of_div_eq (m : ℤ) (d : ℕ) (n : ℚ)
    (h : ((m : ℚ)) / (d : ℚ) = n) : n.den ∣ d := by
  have h3 : Rat.divInt m (d : ℤ) = n := by
    rw [Rat.divInt_eq_div]
    exact_mod_cast h
  have h4 := Rat.den_dvd m (d : ℤ)
  rw [h3] at h4
  exact_mod_cast h4

/-- A denominator candidate not divisible by `n.den` fails the
`closestFraction` loop test and the loop moves on. -/
lemma closestFractionAux_skip (n : ℚ) (d : ℕ) (ds : List ℕ) (hd : 0 < d)
    (hd12 : d ≤ 12) (hq : n.den ≤ 12) (hnd : ¬ n.den ∣ d) :
    closestFractionAux n (d :: ds) = closestFractionAux n ds := by
  have hc : ¬ (|((jsRound (n * d) : ℚ)) / (d : ℚ) - n| < tol ∧ d ≠ 1) := by
    rintro ⟨habs, -⟩
    exact hnd (den_dvd_of_div_eq _ d n (close_imp_eq _ d n hd hd12 hq habs))
  simp only [closestFractionAux]
  rw [if_neg hc]

/-- At the candidate `d = n.den` the loop test succeeds and the simplified
pair `(n.num, n.den)` is returned (the gcd is 1 because `n` is reduced). -/
lemma closestFractionAux_hit (n : ℚ) (ds : List ℕ) (h2 : 2 ≤ n.den) :
    closestFractionAux n (n.den :: ds) = some (n.num, n.den) := by
  simp only [closestFractionAux]
  rw [mul_den_eq_num n, jsRound_intCast n.num]
  rw [if_pos ⟨by rw [Rat.num_div_den]; simp [tol], by omega⟩]
  have hg : gcd n.num.natAbs n.den = 1 := n.reduced
  rw [hg]
  simp

/-- Walking the candidate denominators `a, a+1, ..., 12` with
`a ≤ n.den ≤ 12` reaches `n.den` first and returns `(n.num, n.den)`. -/
lemma closestFractionAux_range (n : ℚ) (h2 : 2 ≤ n.den) (h12 : n.den ≤ 12) :
    ∀ (b a : ℕ), a + b = 13 → 1 ≤ a → a ≤ n.den →
      closestFractionAux n (List.range' a b) = some (n.num, n.den) := by
  intro b
  induction b with
  | zero => intro a h13 h1 hden; exact absurd h13 (by omega)
  | succ b ih =>
    intro a h13 h1 hden
    rw [List.range'_succ]
    rcases eq_or_lt_of_le hden with heq | hlt
    · rw [heq]
      exact closestFractionAux_hit n _ h2
    · rw [closestFractionAux_skip n a _ (by omega) (by omega) h12 ?_]
      · exact ih (a + 1) (by omega) (by omega) (by omega)
      · intro hdvd
        have := Nat.le_of_dvd (by omega) hdvd
        omega

/-- A reduced rational with denominator between 2 and 12 is recovered
exactly by `closestFraction`. -/
lemma closestFraction_den (n : ℚ) (h2 : 2 ≤ n.den) (h12 : n.den ≤ 12) :
    closestFraction n = some (n.num, n.den) := by
  unfold closestFraction
  exact closestFractionAux_range n h2 h12 12 1 rfl (by omega) (by omega)

/-! ## Claims -/

/-- C1 (counterexample): on input `[[1,2,3,14],[2,5,6,30],[3,1,1,10]]` with
the default configuration (RREF, partial pivoting), the final matrix is not
`[[1,0,0,1],[0,1,0,2],[0,0,1,3]]` and the extracted solution is not
`[1,2,3]` — the third equation is not satisfied by `(1,2,3)`. -/
theorem scenarioA_claim_counterexample :
    (solveSystem [[1,2,3,14],[2,5,6,30],[3,1,1,10]] DEFAULT_CONFIG).rref ≠
      [[1,0,0,1],[0,1,0,2],[0,0,1,3]] ∧
    (solveSystem [[1,2,3,14],[2,5,6,30],[3,1,1,10]] DEFAULT_CONFIG).solution ≠
      some [1,2,3] := by
  constructor <;> decide!

/-- C1 (amended): on input `[[1,2,3,14],[2,5,6,30],[3,1,1,10]]` with the
default configuration (RREF, partial pivoting), the final matrix is
`[[1,0,0,7/4],[0,1,0,2],[0,0,1,11/4]]`, the classification is `unique`, and
the extracted solution is `[7/4, 2, 11/4]`. -/
theorem scenarioA_result :
    (solveSystem [[1,2,3,14],[2,5,6,30],[3,1,1,10]] DEFAULT_CONFIG).rref =
      [[1,0,0,7/4],[0,1,0,2],[0,0,1,11/4]] ∧
    (solveSystem [[1,2,3,14],[2,5,6,30],[3,1,1,10]] DEFAULT_CONFIG).solutionType =
      SolutionType.unique ∧
    (solveSystem [[1,2,3,14],[2,5,6,30],[3,1,1,10]] DEFAULT_CONFIG).solution =
      some [7/4, 2, 11/4] := by
  refine ⟨by decide!, by decide!, by decide!⟩

/-- C9: `findIntersectionPoint` depends only on the first three planes of
its argument list. -/
theorem findIntersectionPoint_first_three (planes : List PlaneParams)
    (h : 3 ≤ planes.length) :
    findIntersectionPoint planes = findIntersectionPoint (planes.take 3) := by
  rcases planes with _ | ⟨p1, _ | ⟨p2, _ | ⟨p3, rest⟩⟩⟩ <;> rfl

/-- C9 (witness): a fourth plane does not change the intersection point of
the first three. -/
theorem findIntersectionPoint_first_three_witness :
    (3 : ℕ) ≤ ([⟨(some 1, some 0, some 0), some 1, "", ""⟩,
                 ⟨(some 0, some 1, some 0), some 2, "", ""⟩,
                 ⟨(some 0, some 0, some 1), some 3, "", ""⟩,
                 ⟨(some 1, some 1, some 1), some 6, "", ""⟩] : List PlaneParams).length ∧
    findIntersectionPoint
        [⟨(some 1, some 0, some 0), some 1, "", ""⟩,
         ⟨(some 0, some 1, some 0), some 2, "", ""⟩,
         ⟨(some 0, some 0, some 1), some 3, "", ""⟩,
         ⟨(some 1, some 1, some 1), some 6, "", ""⟩] =
      findIntersectionPoint
        (([⟨(some 1, some 0, some 0), some 1, "", ""⟩,
           ⟨(some 0, some 1, some 0), some 2, "", ""⟩,
           ⟨(some 0, some 0, some 1), some 3, "", ""⟩,
           ⟨(some 1, some 1, some 1), some 6, "", ""⟩] : List PlaneParams).take 3) :=
  ⟨by decide, findIntersectionPoint_first_three _ (by decide)⟩

/-- C3 (counterexample): on `[[0, 1e-10]]` the claim's decision rule — with
the glossary reading of "within tolerance of zero" as `|v| < 1e-10` —
classifies the system as `none`, but `classifySolution` returns `unique`:
the code demands the constant be strictly *above* the tolerance
(`> 1e-10`), not merely "not within tolerance" (`≥ 1e-10`). -/
theorem classify_claim_counterexample :
    claimClassify [[0, 1/10^10]] = SolutionType.noSolution ∧
    classifySolution [[0, 1/10^10]] = SolutionType.unique := by
  constructor <;> decide!

/-- C3 (amended): for every valid matrix, `classifySolution` returns exactly
one of the three solution types, decided as: `none` iff some row has every
coefficient with `|v| < 1e-10` while its constant has `|c| > 1e-10`
(strictly above tolerance); otherwise `unique` iff the number of rows that
are not entirely zero is at least the number of variables, else
`infinite`. -/
theorem classifySolution_eq_specClassify (M : Mat)
    (_hne : M ≠ [])
    (hcols : 2 ≤ (M.getD 0 []).length)
    (hrect : ∀ row ∈ M, row.length = (M.getD 0 []).length) :
    classifySolution M = specClassify M := by
  have hrowlen : ∀ i, i < M.length →
      (M.getD i []).length = (M.getD 0 []).length := by
    intro i hi
    apply hrect
    have : M.getD i [] = M[i] := List.getD_eq_getElem M [] hi
    rw [this]
    exact List.getElem_mem hi
  have hcond :
      (M.any (fun row =>
        (row.take ((M.getD 0 []).length - 1)).all (fun v => |v| < tol) &&
          decide (tol < |row.getD ((M.getD 0 []).length - 1) 0|)) = true)
      ↔ ∃ i < M.length,
          specInconsistentRow ((M.getD 0 []).length - 1) (M.getD i []) := by
    rw [List.any_eq_true]
    constructor
    · rintro ⟨row, hmem, hf⟩
      obtain ⟨i, hi, hrow⟩ := List.mem_iff_getElem.mp hmem
      refine ⟨i, hi, ?_, ?_⟩
      · intro c hc
        have hgd : M.getD i [] = row := by
          rw [List.getD_eq_getElem M [] hi, hrow]
        rw [hgd]
        have h1 := (Bool.and_eq_true _ _).mp hf |>.1
        exact (take_all_abs_iff row _).mp h1 c hc
          (by rw [hrect row hmem]; omega)
      · have h2 := (Bool.and_eq_true _ _).mp hf |>.2
        have hgd : M.getD i [] = row := by
          rw [List.getD_eq_getElem M [] hi, hrow]
        rw [hgd]
        exact of_decide_eq_true h2
    · rintro ⟨i, hi, h1, h2⟩
      refine ⟨M.getD i [], ?_, ?_⟩
      · rw [List.getD_eq_getElem M [] hi]
        exact List.getElem_mem hi
      · rw [Bool.and_eq_true]
        constructor
        · exact (take_all_abs_iff _ _).mpr (fun c hc _ => h1 c hc)
        · exact decide_eq_true h2
  simp only [classifySolution, specClassify]
  by_cases hex : ∃ i < M.length,
      specInconsistentRow ((M.getD 0 []).length - 1) (M.getD i [])
  · rw [if_pos (hcond.mpr hex), if_pos hex]
  · rw [if_neg (fun h => hex (hcond.mp h)), if_neg hex,
      List.countP_eq_length_filter]

/-- C3 (witness): the amended classification rule agrees with the code on a
concrete valid matrix. -/
theorem classifySolution_eq_specClassify_witness :
    classifySolution [[1, 0, 3], [0, 0, 0]] = specClassify [[1, 0, 3], [0, 0, 0]] :=
  classifySolution_eq_specClassify [[1, 0, 3], [0, 0, 0]]
    (by decide) (by decide) (by decide)

/-- C4 (counterexample): `scaleRow` accepts a scalar that is within the
numeric tolerance of zero but not exactly zero (`1e-20`): it returns the
scaled matrix instead of failing. -/
theorem scaleRow_tolerance_counterexample :
    ((1 : ℚ)/10^20 ≠ 0) ∧ (|(1 : ℚ)/10^20| < tol) ∧
    scaleRow [[1, 2]] 0 (1/10^20) = some [[1/10^20, 2/10^20]] := by
  refine ⟨by decide!, by decide!, by decide!⟩

/-- C4 (amended): `scaleRow(M, i, k)` fails exactly when `k` is exactly
zero (leaving `M` untouched — it is never mutated); for any non-zero `k`,
even one within tolerance of zero, it succeeds, and the result multiplies
every entry of row `i` by `k` while every other row equals the
corresponding row of `M`. -/
theorem scaleRow_spec (M : Mat) (i j : ℕ) (k : ℚ) (M' : Mat) :
    (k = 0 → scaleRow M i k = Option.none) ∧
    (scaleRow M i k = some M' → i < M.length →
      M'.length = M.length ∧
      M'.getD i [] = (M.getD i []).map (fun val => val * k) ∧
      (j ≠ i → M'.getD j [] = M.getD j [])) := by
  constructor
  · intro hk; simp [scaleRow, hk]
  · intro h hi
    unfold scaleRow at h
    split_ifs at h with hk
    have hM' : M' = M.set i ((M.getD i []).map fun val => val * k) :=
      (Option.some.inj h).symm
    subst hM'
    refine ⟨by simp, ?_, ?_⟩
    · simp [List.getD_eq_getElem?_getD, List.getElem?_set_self hi]
    · intro hj
      simp [List.getD_eq_getElem?_getD, List.getElem?_set_ne (Ne.symm hj)]

/-- C4 (witness): scaling row 0 of `[[1,2],[3,4]]` by 3 multiplies that row
entrywise and leaves row 1 unchanged. -/
theorem scaleRow_spec_witness :
    ([[3, 6], [3, 4]] : Mat).length = ([[1, 2], [3, 4]] : Mat).length ∧
    ([[3, 6], [3, 4]] : Mat).getD 0 [] =
      (([[1, 2], [3, 4]] : Mat).getD 0 []).map (fun val => val * 3) ∧
    ([[3, 6], [3, 4]] : Mat).getD 1 [] = ([[1, 2], [3, 4]] : Mat).getD 1 [] := by
  have h := (scaleRow_spec [[1, 2], [3, 4]] 0 1 3 [[3, 6], [3, 4]]).2
    (by decide!) (by decide)
  exact ⟨h.1, h.2.1, h.2.2 (by decide)⟩

/-- C5 (counterexample): `swapRows` with an out-of-bounds second index does
not fail at all — it returns a matrix with an `undefined` hole where row 0
was, different from the input: no `InvalidOperation(RowIndexOutOfRange)` is
raised and the result is visibly corrupted. -/
theorem swapRows_oob_counterexample :
    swapRowsJS [some [1, 2]] 0 1 = [Option.none, some [1, 2]] ∧
    swapRowsJS [some [1, 2]] 0 1 ≠ [some [1, 2]] := by
  constructor <;> decide

/-- C5 (amended): no bounds validation exists.  For an in-bounds `i` and an
out-of-bounds `j`: `swapRows` silently succeeds, extending the matrix to
length `j+1` and leaving an `undefined` row at position `i`, while
`scaleRow` and `addMultipleOfRow` fail with a `TypeError` from dereferencing
an `undefined` row — not with `InvalidOperation(RowIndexOutOfRange)`.  (At
the reducer level the thrown `TypeError` leaves the `HistoryState`
unchanged, but the swap case stores the corrupted matrix.) -/
theorem rowOps_no_bounds_check (M : JsMat) (i j : ℕ) (k : ℚ)
    (hi : i < M.length) (hj : M.length ≤ j) :
    (swapRowsJS M i j).length = j + 1 ∧
    jsGetRow (swapRowsJS M i j) i = Option.none ∧
    scaleRowJS M j k = Option.none ∧
    addMultipleOfRowJS M j i k = Option.none := by
  have hij : i ≠ j := by omega
  have hgj : jsGetRow M j = Option.none := by
    unfold jsGetRow
    simp [List.getD_eq_getElem?_getD, List.getElem?_eq_none hj]
  have hswap : swapRowsJS M i j =
      (M.set i Option.none ++ List.replicate (j - M.length) Option.none) ++
        [jsGetRow M i] := by
    unfold swapRowsJS
    rw [if_neg hij]
    simp only [hgj]
    rw [show jsSetRow M i Option.none = M.set i Option.none from by
      unfold jsSetRow; rw [if_pos hi]]
    unfold jsSetRow
    rw [if_neg (show ¬ j < (M.set i Option.none).length by simp; omega)]
    simp
  refine ⟨?_, ?_, ?_, ?_⟩
  · rw [hswap]
    simp
    omega
  · rw [hswap]
    unfold jsGetRow
    rw [List.getD_eq_getElem?_getD,
      List.getElem?_append_left (by simp; omega),
      List.getElem?_append_left (by simpa using hi)]
    simp [List.getElem?_set_self (by simpa using hi)]
  · unfold scaleRowJS
    split_ifs with hk
    · rfl
    · rw [hgj]
  · unfold addMultipleOfRowJS
    rw [hgj]

/-- C5 (witness): concrete instance with `i = 0` in bounds and `j = 2` out
of bounds for a one-row matrix. -/
theorem rowOps_no_bounds_check_witness :
    (swapRowsJS [some [1, 2]] 0 2).length = 3 ∧
    jsGetRow (swapRowsJS [some [1, 2]] 0 2) 0 = Option.none ∧
    scaleRowJS [some [1, 2]] 2 5 = Option.none ∧
    addMultipleOfRowJS [some [1, 2]] 2 0 5 = Option.none :=
  rowOps_no_bounds_check [some [1, 2]] 0 2 5 (by decide) (by decide)

/-- C10: `validateMatrix` accepts matrices containing `Infinity` and
`-Infinity` entries: its per-entry check rejects only values that are not of
number type or are `NaN`, so any well-shaped matrix whose entries are
number-typed and not `NaN` — including non-finite infinities — validates to
`null`. -/
theorem validateMatrix_accepts_nonfinite :
    validateMatrix [[JSVal.posInf, JSVal.negInf]] = Option.none ∧
    ∀ (M : List (List JSVal)), M ≠ [] → 2 ≤ (M.getD 0 []).length →
      (∀ row ∈ M, row.length = (M.getD 0 []).length) →
      (∀ row ∈ M, ∀ v ∈ row, v ≠ JSVal.nan ∧ v ≠ JSVal.nonNumber) →
      validateMatrix M = Option.none := by
  constructor
  · decide
  · intro M hne hcols hrect hent
    unfold validateMatrix
    rw [if_neg (by simpa using hne), if_neg (by omega)]
    apply validateRows_none
    · intro p hp
      exact hrect p.2 (mem_enumFrom_snd M 0 p (by simpa [List.enum] using hp))
    · intro p hp v hv
      have hm := mem_enumFrom_snd M 0 p (by simpa [List.enum] using hp)
      have hv' := hent p.2 hm v hv
      cases v <;> simp_all [invalidEntry, jsTypeofNumber, jsIsNaN]

/-- C10 (witness): a concrete matrix containing `Infinity` validates. -/
theorem validateMatrix_accepts_nonfinite_witness :
    validateMatrix [[JSVal.num 1, JSVal.posInf]] = Option.none :=
  validateMatrix_accepts_nonfinite.2 [[JSVal.num 1, JSVal.posInf]]
    (by decide) (by decide) (by decide) (by decide)

/-- C6: for every initial matrix and every sequence of `N` successful
`APPLY_ROW_OP` dispatches followed by `N` `UNDO` dispatches, the resulting
`present` snapshot equals the initial snapshot created for the starting
matrix. -/
theorem apply_then_undo_returns_initial (M : Mat) (ops : List RowOperation)
    (s' : HistoryState) (h : applyAll ops (initialHistory M) = some s') :
    (undoN ops.length s').present = createInitialSnapshot M :=
  (applyAll_undo ops (initialHistory M) s' h).2

/-- C6 (witness): one successful scale operation followed by one undo
returns to the initial snapshot of `[[1,2]]`. -/
theorem apply_then_undo_returns_initial_witness :
    ((applyAll [RowOperation.scale 0 2] (initialHistory [[1, 2]])).map
      (fun s' => (undoN 1 s').present)) = some (createInitialSnapshot [[1, 2]]) := by
  cases h : applyAll [RowOperation.scale 0 2] (initialHistory [[1, 2]]) with
  | none => exact absurd h (by decide!)
  | some s' =>
    simp only [Option.map_some']
    exact congrArg some
      (apply_then_undo_returns_initial [[1, 2]] [RowOperation.scale 0 2] s' h)

/-- C7: the `UNDO`, `REDO` and `JUMP_TO(i)` transitions preserve the
flattened timeline `past ++ [present] ++ future` element-for-element — they
only move which element is the present one (so `APPLY_ROW_OP` and `RESET`
are the only transitions that change the timeline's contents). -/
theorem undo_redo_jump_preserve_timeline (s : HistoryState) (a : HistoryAction)
    (s' : HistoryState)
    (ha : a = HistoryAction.undo ∨ a = HistoryAction.redo ∨
      ∃ i, a = HistoryAction.jumpTo i)
    (h : historyReducer s a = some s') :
    timeline s' = timeline s := by
  rcases ha with rfl | rfl | ⟨i, rfl⟩
  · simp only [historyReducer, Option.some.injEq] at h
    subst h
    by_cases hp : s.past = []
    · rw [if_pos hp]
    · rw [if_neg hp]
      rcases List.eq_nil_or_concat' s.past with h0 | ⟨l, x, heq⟩
      · exact absurd h0 hp
      · simp [timeline, heq, List.dropLast_concat, List.getLastD_concat]
  · simp only [historyReducer, Option.some.injEq] at h
    cases hf : s.future with
    | nil =>
      rw [hf] at h
      simp only at h
      subst h
      rfl
    | cons next rest =>
      rw [hf] at h
      simp only at h
      subst h
      simp [timeline, hf]
  · simp only [historyReducer, Option.some.injEq] at h
    subst h
    by_cases hi : i < (s.past ++ [s.present] ++ s.future).length
    · rw [if_pos hi]
      show (s.past ++ [s.present] ++ s.future).take i ++
          [(s.past ++ [s.present] ++ s.future).getD i s.present] ++
          (s.past ++ [s.present] ++ s.future).drop (i + 1) = timeline s
      rw [List.getD_eq_getElem _ _ hi, take_getElem_drop _ i hi]
      rfl
    · rw [if_neg hi]

/-- C7 (witness): an `UNDO` on a state with non-trivial past and future
leaves the flattened timeline unchanged. -/
theorem undo_redo_jump_preserve_timeline_witness :
    (historyReducer
        ⟨[createInitialSnapshot [[1, 2]]], createInitialSnapshot [[3, 4]],
          [createInitialSnapshot [[5, 6]]]⟩ HistoryAction.undo).map timeline =
      some (timeline
        ⟨[createInitialSnapshot [[1, 2]]], createInitialSnapshot [[3, 4]],
          [createInitialSnapshot [[5, 6]]]⟩) := by
  cases h : historyReducer
      (⟨[createInitialSnapshot [[1, 2]]], createInitialSnapshot [[3, 4]],
        [createInitialSnapshot [[5, 6]]]⟩ : HistoryState) HistoryAction.undo with
  | none => exact absurd h (by simp [historyReducer])
  | some s' =>
    simp only [Option.map_some']
    exact congrArg some
      (undo_redo_jump_preserve_timeline _ HistoryAction.undo s' (Or.inl rfl) h)

/-- C2: for every valid matrix and configuration the elimination engine's
step sequence is a finite list (the generator terminates by construction),
its first step has phase `initial`, its last step has phase `complete`, and
the `stepIndex` values are exactly `0, 1, 2, ...` — strictly increasing from
0. -/
theorem eliminationEngine_steps (M : Mat) (cfg : SolverConfig)
    (_hne : M ≠ []) (_hcols : 2 ≤ (M.getD 0 []).length)
    (_hrect : ∀ row ∈ M, row.length = (M.getD 0 []).length) :
    gaussJordanSolver M cfg ≠ [] ∧
    ((gaussJordanSolver M cfg).map SolverStep.phase).head? = some Phase.initial ∧
    ((gaussJordanSolver M cfg).map SolverStep.phase).getLast? = some Phase.complete ∧
    (gaussJordanSolver M cfg).map SolverStep.stepIndex =
      List.range (gaussJordanSolver M cfg).length := by
  obtain ⟨h1, h2⟩ := fwdLoop_chunk M.length cfg.pivoting cfg.mode
    (List.range ((M.getD 0 []).length - 1)) (cloneMatrix M) 0 1
  refine ⟨by simp [gaussJordanSolver], by simp [gaussJordanSolver], ?_, ?_⟩
  · simp only [gaussJordanSolver, List.map_cons, List.map_append, List.map_nil]
    rw [show ∀ (a : Phase) (l1 l2 : List Phase), a :: (l1 ++ l2) = (a :: l1) ++ l2
      from fun _ _ _ => rfl]
    rw [List.getLast?_concat]
  · have key : ∀ (len : ℕ),
        (0 :: (List.range' 1 len ++ [1 + len]) : List ℕ) = List.range (len + 2) := by
      intro len
      have hr : List.range (len + 2) = 0 :: List.range' 1 (len + 1) := by
        rw [List.range_eq_range']
        simpa using List.range'_succ 0 (len + 1) 1
      rw [hr, show ([1 + len] : List ℕ) = List.range' (1 + len) 1 from rfl,
        List.range'_append_1]
      exact congrArg (fun t => 0 :: List.range' 1 t) (by omega)
    simp only [gaussJordanSolver, List.map_cons, List.map_append, List.map_nil,
      List.length_cons, List.length_append, List.length_nil]
    rw [h1, h2]
    exact (key _).trans (congrArg List.range (by omega))

/-- C2 (witness): a concrete valid 1×2 system produces the two-step sequence
`initial`, `complete` with step indices `0, 1`. -/
theorem eliminationEngine_steps_witness :
    gaussJordanSolver [[1, 2]] DEFAULT_CONFIG ≠ [] ∧
    ((gaussJordanSolver [[1, 2]] DEFAULT_CONFIG).map SolverStep.phase).head? =
      some Phase.initial ∧
    ((gaussJordanSolver [[1, 2]] DEFAULT_CONFIG).map SolverStep.phase).getLast? =
      some Phase.complete ∧
    (gaussJordanSolver [[1, 2]] DEFAULT_CONFIG).map SolverStep.stepIndex =
      List.range (gaussJordanSolver [[1, 2]] DEFAULT_CONFIG).length :=
  eliminationEngine_steps [[1, 2]] DEFAULT_CONFIG (by decide) (by decide) (by decide)

/-- C8 (counterexample): the scalar `2/5` is (exactly, hence within
tolerance) a fraction with simplified denominator `5 ≤ 12`, yet the
explanation text formats it as the 4-decimal rounded value `0.4`, not as the
fraction `2/5`: `formatNumber` only recognises a fixed table of halves,
thirds, quarters, fifths (`1/5` only) and sixths. -/
theorem explanation_fraction_counterexample :
    (|(2 : ℚ)/5 - 2/5| < tol) ∧ ((2 : ℚ)/5).den ≤ 12 ∧
    generateExplanation (RowOperation.scale 0 (2/5)) = "Multiply Row 1 by 0.4" ∧
    generateExplanation (RowOperation.scale 0 (2/5)) ≠ "Multiply Row 1 by 2/5" := by
  refine ⟨by decide!, by decide!, by decide!, by decide!⟩

/-- C8 (amended): in the LaTeX formula string, a non-integer scalar whose
reduced denominator is between 2 and 12 is always formatted as its
simplified fraction `\frac{num}{den}`; the plain explanation text instead
recognises only the fixed table in `formatNumber` and otherwise falls back
to the 4-decimal rounded value. -/
theorem formatLatexNumber_fraction (n : ℚ) (h2 : 2 ≤ n.den) (h12 : n.den ≤ 12) :
    formatLatexNumber n =
      "\\frac\x7b" ++ toString n.num ++ "\x7d\x7b" ++ toString n.den ++ "\x7d" := by
  unfold formatLatexNumber
  rw [if_neg (by omega), closestFraction_den n h2 h12]

/-- C8 (witness): `2/5` is rendered as `\frac{2}{5}` in the LaTeX string. -/
theorem formatLatexNumber_fraction_witness :
    2 ≤ ((2 : ℚ)/5).den ∧ ((2 : ℚ)/5).den ≤ 12 ∧
    formatLatexNumber ((2 : ℚ)/5) =
      "\\frac\x7b" ++ toString ((2 : ℚ)/5).num ++ "\x7d\x7b" ++
        toString ((2 : ℚ)/5).den ++ "\x7d" :=
  ⟨by decide!, by decide!, formatLatexNumber_fraction ((2 : ℚ)/5) (by decide!) (by decide!)⟩

end LiAnalyze

